import Mathlib

/-!
Shallow embedding of the arXiv-frontend repository:
`src/fetch_arxiv.py` (ingestion upsert and batch loops),
`src/tags_helper.py` (tag attach/detach), and
`src/app.py` (citation export, pagination, 404 routes).

The relational state (tables `papers`, `authors`, `paper_authors`,
`tags`, `paper_tags`, each with an auto-increment id counter) is
modelled as lists of rows; SQL statements become list operations.
-/

/-- A calendar date as stored in the `papers` table (`published_date`). -/
structure SDate where
  year : Nat
  month : Nat
  day : Nat
deriving DecidableEq, Repr

/-- A row of the `papers` table. -/
structure PaperRow where
  id : Nat
  arxiv_id : String
  title : String
  abstract : String
  published_date : SDate
  updated_date : Option SDate
  comment : Option String
  journal_ref : Option String
  doi : Option String
  primary_category : String
deriving DecidableEq, Repr

/-- A row of the `authors` table. -/
structure AuthorRow where
  id : Nat
  name : String
deriving DecidableEq, Repr

/-- A row of the `paper_authors` link table. -/
structure PALink where
  paper_id : Nat
  author_id : Nat
  author_order : Nat
deriving DecidableEq, Repr

/-- A row of the `tags` table. -/
structure TagRow where
  id : Nat
  name : String
  tag_type : String
  description : Option String
deriving DecidableEq, Repr

/-- A row of the `paper_tags` link table. -/
structure PTLink where
  paper_id : Nat
  tag_id : Nat
deriving DecidableEq, Repr

/-- The database state: the five tables plus the auto-increment
counters that supply fresh primary keys. -/
structure DB where
  papers : List PaperRow
  authors : List AuthorRow
  paper_authors : List PALink
  tags : List TagRow
  paper_tags : List PTLink
  nextPaperId : Nat
  nextAuthorId : Nat
  nextTagId : Nat
deriving DecidableEq, Repr

/-- A source record as returned by the external metadata API
(an `arxiv.Result` in `fetch_arxiv.py`). -/
structure ArxivRec where
  entry_id : String
  title : String
  summary : String
  published : SDate
  updated : Option SDate
  comment : Option String
  journal_ref : Option String
  doi : Option String
  primary_category : String
  authors : List String
deriving DecidableEq, Repr

/-- From `fetch_arxiv.py` line 46: `paper.entry_id.split('/abs/')[-1]`. -/
def extract_arxiv_id (entry_id : String) : String :=
  (entry_id.splitOn "/abs/").getLastD ""

/-- From `fetch_arxiv.py` lines 97-101: `INSERT INTO authors ... ON DUPLICATE
KEY UPDATE id=LAST_INSERT_ID(id)` — reuse the row with this name if it
exists, otherwise insert a fresh one; return its id. -/
def getOrCreateAuthor (name : String) (db : DB) : Nat × DB :=
  match db.authors.find? (fun a => a.name == name) with
  | some a => (a.id, db)
  | none =>
      (db.nextAuthorId,
       { db with authors := db.authors ++ [⟨db.nextAuthorId, name⟩],
                 nextAuthorId := db.nextAuthorId + 1 })

/-- From `fetch_arxiv.py` lines 104-107: `INSERT IGNORE INTO paper_authors`,
keyed on `(paper_id, author_id)`. -/
def insertIgnoreLink (pid aid ord : Nat) (db : DB) : DB :=
  if db.paper_authors.any (fun l => l.paper_id == pid && l.author_id == aid) then db
  else { db with paper_authors := db.paper_authors ++ [⟨pid, aid, ord⟩] }

/-- Appending one link row to the `paper_authors` table (the effect
of a non-ignored `INSERT INTO paper_authors`). -/
def appendLink (db : DB) (l : PALink) : DB :=
  ⟨db.papers, db.authors, db.paper_authors ++ [l], db.tags, db.paper_tags,
   db.nextPaperId, db.nextAuthorId, db.nextTagId⟩

/-- From `fetch_arxiv.py` lines 93-107: the author loop of
`insert_or_update_paper`, `enumerate(paper.authors, start=1)`. -/
def addAuthors (pid : Nat) (names : List String) (ord : Nat) (db : DB) : DB :=
  match names with
  | [] => db
  | n :: rest =>
      let r := getOrCreateAuthor n db
      addAuthors pid rest (ord + 1) (insertIgnoreLink pid r.1 ord r.2)

/-- The `UPDATE papers SET ...` statement (`fetch_arxiv.py` lines
63-75): overwrite every mutable column, keeping `id` and `arxiv_id`. -/
def updatePaper (rec : ArxivRec) (p : PaperRow) : PaperRow :=
  ⟨p.id, p.arxiv_id, rec.title, rec.summary, rec.published, rec.updated,
   rec.comment, rec.journal_ref, rec.doi, rec.primary_category⟩

/-- The update branch of the upsert (`fetch_arxiv.py` lines 60-79):
rewrite the found row in place and clear this paper's author links
(`DELETE FROM paper_authors WHERE paper_id = %s`). -/
def updateBranch (rec : ArxivRec) (pid : Nat) (db : DB) : DB :=
  ⟨db.papers.map (fun p => if p.id == pid then updatePaper rec p else p),
   db.authors,
   db.paper_authors.filter (fun l => !(l.paper_id == pid)),
   db.tags, db.paper_tags, db.nextPaperId, db.nextAuthorId, db.nextTagId⟩

/-- The freshly inserted row of the insert branch (`fetch_arxiv.py`
lines 82-89). -/
def newPaperRow (rec : ArxivRec) (pid : Nat) : PaperRow :=
  ⟨pid, extract_arxiv_id rec.entry_id, rec.title, rec.summary, rec.published,
   rec.updated, rec.comment, rec.journal_ref, rec.doi, rec.primary_category⟩

/-- The insert branch of the upsert (`fetch_arxiv.py` lines 80-90):
append a new paper row under the next auto-increment id. -/
def insertBranch (rec : ArxivRec) (db : DB) : DB :=
  ⟨db.papers ++ [newPaperRow rec db.nextPaperId],
   db.authors, db.paper_authors, db.tags, db.paper_tags,
   db.nextPaperId + 1, db.nextAuthorId, db.nextTagId⟩

/-- From `fetch_arxiv.py` lines 32-109: `insert_or_update_paper`.
Looks up the paper by external id; if found, overwrites the mutable
columns and deletes all its author links; otherwise inserts a new row.
Then re-inserts the author links with 1-based ordinals. -/
def insert_or_update_paper (rec : ArxivRec) (db : DB) : Nat × DB :=
  match db.papers.find? (fun p => p.arxiv_id == extract_arxiv_id rec.entry_id) with
  | some row => (row.id, addAuthors row.id rec.authors 1 (updateBranch rec row.id db))
  | none => (db.nextPaperId, addAuthors db.nextPaperId rec.authors 1 (insertBranch rec db))

/-- The rows of `paper_authors` that reference a given paper. -/
def linksFor (db : DB) (pid : Nat) : List PALink :=
  db.paper_authors.filter (fun l => l.paper_id == pid)

/-- Resolve an author id to the stored display name (`authors.name`). -/
def authorName (db : DB) (aid : Nat) : Option String :=
  (db.authors.find? (fun a => a.id == aid)).map (fun a => a.name)

/-- The observable content of an author link: the linked author's name
and the stored ordinal. -/
def linkProj (db : DB) (l : PALink) : Option String × Nat :=
  (authorName db l.author_id, l.author_order)

/-- The author id the `authors` table associates to a name. -/
def theAuthorId (db : DB) (n : String) : Nat :=
  match db.authors.find? (fun a => a.name == n) with
  | some a => a.id
  | none => 0

/-- Expected link content for an author list whose first ordinal is
`ord`: one entry per author, ordinals counting up in source order. -/
def expectedProj (names : List String) (ord : Nat) : List (Option String × Nat) :=
  match names with
  | [] => []
  | n :: rest => (some n, ord) :: expectedProj rest (ord + 1)

/-- Expected concrete link rows: each author resolved through the
`authors` table of the final state. -/
def expectedLinks (db : DB) (pid : Nat) (names : List String) (ord : Nat) :
    List PALink :=
  match names with
  | [] => []
  | n :: rest => ⟨pid, theAuthorId db n, ord⟩ :: expectedLinks db pid rest (ord + 1)

/-- Well-formedness of the database state: natural keys are unique,
primary keys are unique and below the auto-increment counters, and
link rows reference only allocated ids. -/
structure WF (db : DB) : Prop where
  papersKey : (db.papers.map (fun p => p.arxiv_id)).Nodup
  papersId : (db.papers.map (fun p => p.id)).Nodup
  papersLt : ∀ p ∈ db.papers, p.id < db.nextPaperId
  authorsKey : (db.authors.map (fun a => a.name)).Nodup
  authorsId : (db.authors.map (fun a => a.id)).Nodup
  authorsLt : ∀ a ∈ db.authors, a.id < db.nextAuthorId
  linksKey : (db.paper_authors.map (fun l => (l.paper_id, l.author_id))).Nodup
  linksPaperLt : ∀ l ∈ db.paper_authors, l.paper_id < db.nextPaperId
  linksAuthorLt : ∀ l ∈ db.paper_authors, l.author_id < db.nextAuthorId
  tagsKey : (db.tags.map (fun t => (t.name, t.tag_type))).Nodup
  tagsId : (db.tags.map (fun t => t.id)).Nodup
  tagsLt : ∀ t ∈ db.tags, t.id < db.nextTagId
  ptKey : (db.paper_tags.map (fun l => (l.paper_id, l.tag_id))).Nodup

/-! ## Tagging service (`tags_helper.py`) -/

/-- From `tags_helper.py` lines 18-47: `get_or_create_tag`. -/
def get_or_create_tag (tag_name tag_type : String) (description : Option String)
    (db : DB) : Nat × DB :=
  match db.tags.find? (fun t => t.name == tag_name && t.tag_type == tag_type) with
  | some t => (t.id, db)
  | none =>
      (db.nextTagId,
       { db with tags := db.tags ++ [⟨db.nextTagId, tag_name, tag_type, description⟩],
                 nextTagId := db.nextTagId + 1 })

/-- From `tags_helper.py` lines 50-96: `add_tag_to_paper`. Returns `false`
and leaves the state alone when the paper is missing; otherwise
resolves or creates the tag and inserts the link if absent
(`INSERT IGNORE INTO paper_tags`). -/
def add_tag_to_paper (arxiv_id tag_name tag_type : String)
    (description : Option String) (db : DB) : Bool × DB :=
  match db.papers.find? (fun p => p.arxiv_id == arxiv_id) with
  | none => (false, db)
  | some p =>
      let r := get_or_create_tag tag_name tag_type description db
      let db2 :=
        if r.2.paper_tags.any (fun l => l.paper_id == p.id && l.tag_id == r.1) then r.2
        else { r.2 with paper_tags := r.2.paper_tags ++ [⟨p.id, r.1⟩] }
      (true, db2)

/-- From `tags_helper.py` lines 99-147: `remove_tag_from_paper`. The lookup
is a cross join of `papers` and `tags` (it never inspects
`paper_tags`); if both rows exist, the matching links are deleted —
whether or not any existed — and the call reports success. -/
def remove_tag_from_paper (arxiv_id tag_name tag_type : String)
    (db : DB) : Bool × DB :=
  match db.papers.find? (fun p => p.arxiv_id == arxiv_id),
        db.tags.find? (fun t => t.name == tag_name && t.tag_type == tag_type) with
  | some p, some t =>
      (true, { db with
                 paper_tags := db.paper_tags.filter
                   (fun l => !(l.paper_id == p.id && l.tag_id == t.id)) })
  | some _, none => (false, db)
  | none, _ => (false, db)

/-! ## Batch ingestion loops (`fetch_arxiv.py` lines 145-168 and 204-227)

A per-record upsert is abstracted as the list of row mutations it
executes on the shared transaction before either completing or
raising (`fails = true`).  The loop catches per-record exceptions and
continues; the transaction is committed once after the loop, and an
exception raised outside the per-record step rolls everything back. -/

/-- One fetched record as seen by the batch loop: the statements its
upsert executes on the open transaction, and whether the upsert then
raises (after having executed them). -/
structure BatchRec (α : Type) where
  ops : List α
  fails : Bool
deriving DecidableEq, Repr

/-- Outcome of a batch invocation: mutations durably committed, the
success and error counters printed at the end, how many commits and
rollbacks were issued, and whether the invocation re-raised. -/
structure BatchResult (α : Type) where
  committed : List α
  count : Nat
  errors : Nat
  commits : Nat
  rollbacks : Nat
  raised : Bool
deriving DecidableEq, Repr

/-- The per-record loop (`for paper in client.results(search): try ...
except ... continue`): each record's upsert executes its statements on
the open transaction; if it raises, the exception is caught, the error
counter is bumped and the loop continues — the statements it already
executed stay in the transaction. -/
def runBatchLoop {α : Type} (recs : List (BatchRec α)) (executed : List α)
    (count errors : Nat) : List α × Nat × Nat :=
  match recs with
  | [] => (executed, count, errors)
  | r :: rest =>
      if r.fails then runBatchLoop rest (executed ++ r.ops) count (errors + 1)
      else runBatchLoop rest (executed ++ r.ops) (count + 1) errors

/-- The shared try/except/commit skeleton of `fetch_recent_papers` and
`fetch_date_range`.  `outer = some k` models an exception raised by
the result iterator itself after `k` records were processed: the
`except` branch rolls back the whole batch and re-raises.  Otherwise
the loop runs to the end and the transaction is committed exactly
once. -/
def runBatch {α : Type} (recs : List (BatchRec α)) (outer : Option Nat) :
    BatchResult α :=
  match outer with
  | some k =>
      { committed := [],
        count := (runBatchLoop (recs.take k) [] 0 0).2.1,
        errors := (runBatchLoop (recs.take k) [] 0 0).2.2,
        commits := 0, rollbacks := 1, raised := true }
  | none =>
      { committed := (runBatchLoop recs [] 0 0).1,
        count := (runBatchLoop recs [] 0 0).2.1,
        errors := (runBatchLoop recs [] 0 0).2.2,
        commits := 1, rollbacks := 0, raised := false }

/-- From `fetch_arxiv.py` lines 131-136: the search object; only the
`max_results` cap matters to the embedding. -/
structure Search where
  max_results : Nat
deriving DecidableEq, Repr

/-- From `fetch_arxiv.py` line 133: `max_results=500` in recent-window mode. -/
def recent_search : Search := ⟨500⟩

/-- From `fetch_arxiv.py` line 192: `max_results=5000` in backfill mode. -/
def backfill_search : Search := ⟨5000⟩

/-- The external client truncates the matching window to the search's
`max_results` cap (contract of the `arxiv` library). -/
def client_results {α : Type} (s : Search) (window : List α) : List α :=
  window.take s.max_results

/-- From `fetch_arxiv.py` lines 112-168: `fetch_recent_papers`, applied to
the records of the selected time window. -/
def fetch_recent_papers {α : Type} (window : List (BatchRec α))
    (outer : Option Nat) : BatchResult α :=
  runBatch (client_results recent_search window) outer

/-- From `fetch_arxiv.py` lines 171-227: `fetch_date_range`, applied to the
records of the selected date range. -/
def fetch_date_range {α : Type} (window : List (BatchRec α))
    (outer : Option Nat) : BatchResult α :=
  runBatch (client_results backfill_search window) outer

/-! ## Presentation layer (`app.py`) -/

/-- Wrap a completed run of consecutive uppercase letters: braces are
added only around runs of length 2 or more (`app.py` line 34,
`re.sub(r'[A-Z]\x7b2,\x7d', ...)`). -/
def flushRun (run : List Char) : List Char :=
  if 2 ≤ run.length then '{' :: run ++ ['}'] else run

/-- Scanner for the first substitution pass: accumulate the current
uppercase run (in reverse) and flush it when it ends. -/
def wrapRunsGo (run : List Char) : List Char → List Char
  | [] => flushRun run.reverse
  | c :: rest =>
      if c.isUpper then wrapRunsGo (c :: run) rest
      else flushRun run.reverse ++ c :: wrapRunsGo [] rest

/-- First pass of `protect_capitals_for_bibtex`: wrap every maximal
run of 2+ uppercase letters. -/
def wrapRuns (s : List Char) : List Char :=
  wrapRunsGo [] s

/-- One lookbehind pass of `re.sub`: wrap every uppercase letter whose
preceding character in the input satisfies `p`.  The lookbehind reads
the input string, so `prev` is always the input character just
scanned, never inserted braces. -/
def wrapAfterGo (p : Char → Bool) (prev : Option Char) : List Char → List Char
  | [] => []
  | c :: rest =>
      if c.isUpper && (match prev with | some q => p q | none => false) then
        '{' :: c :: '}' :: wrapAfterGo p (some c) rest
      else
        c :: wrapAfterGo p (some c) rest

/-- From `app.py` lines 21-42: `protect_capitals_for_bibtex`.  Three
substitution passes in sequence: 2+ uppercase runs, then an uppercase
letter preceded by a lowercase letter, then an uppercase letter
preceded by a hyphen or slash. -/
def protect_capitals_for_bibtex (title : String) : String :=
  let s1 := wrapRuns title.data
  let s2 := wrapAfterGo (fun c => c.isLower) none s1
  let s3 := wrapAfterGo (fun c => c == '-' || c == '/') none s2
  String.mk s3

/-- Split a character list at every separator character (a character
satisfying `p`), keeping empty pieces — the semantics of Python
`str.split(sep)` for a one-character separator. -/
def splitPred (p : Char → Bool) (s : List Char) : List (List Char) :=
  match s with
  | [] => [[]]
  | a :: rest =>
      match splitPred p rest, p a with
      | r, true => [] :: r
      | [], false => [[a]]
      | h :: t, false => (a :: h) :: t

/-- Python `str.split()` on the author name: whitespace-delimited
tokens, empty pieces discarded. -/
def nameTokens (s : String) : List String :=
  ((splitPred (fun c => c.isWhitespace) s.data).filter (fun t => t ≠ [])).map
    (fun t => String.mk t)

/-- From `app.py` line 166: `first_author.split()[-1]` — the last
whitespace-delimited token (`none` when the name has no token, where
the route would raise). -/
def last_name_of (author : String) : Option String :=
  (nameTokens author).getLast?

/-- From `app.py` line 168: keep only alphanumeric characters. -/
def strip_non_alnum (s : String) : String :=
  String.mk (s.data.filter (fun c => c.isAlphanum))

/-- From `app.py` lines 160-172: derivation of the BibTeX citation key from
the ordered author list and the publication year. -/
def bibtex_key (authors : List String) (year : Nat) : Option String :=
  match authors with
  | [] => some ("arxiv" ++ toString year ++ "x")
  | a :: _ =>
      (last_name_of a).map (fun ln => strip_non_alnum ln ++ toString year ++ "x")

/-- From `app.py` lines 177-180: `if 'v' in id: id = id.split('v')[0]` —
the exported citation text embeds the ID truncated at its first `v`
(IDs with no `v` are embedded unchanged). -/
def clean_arxiv_id (arxiv_id : String) : String :=
  if 'v' ∈ arxiv_id.data then
    String.mk (arxiv_id.data.takeWhile (fun c => !(c == 'v')))
  else arxiv_id

/-- The value the bibtex route embeds in the `Eprint` and `url` fields
(`app.py` lines 189-190). -/
def bibtex_eprint (p : PaperRow) : String :=
  clean_arxiv_id p.arxiv_id

/-- From `app.py` line 66: the fixed page size. -/
def per_page : Nat := 20

/-- From `app.py` line 101: `total_pages = (total + per_page - 1) // per_page`. -/
def total_pages (total : Nat) : Nat :=
  (total + per_page - 1) / per_page

/-- From `app.py` lines 67 and 84-90: `offset = (page - 1) * per_page` and
`LIMIT per_page OFFSET offset` over the ordered matching rows. -/
def page_rows {α : Type} (rows : List α) (page : Nat) : List α :=
  (rows.drop ((page - 1) * per_page)).take per_page

/-- Gregorian leap year, as `datetime.date` uses. -/
def isLeap (y : Nat) : Bool :=
  y % 4 == 0 && (y % 100 != 0 || y % 400 == 0)

/-- Length of a calendar month. -/
def daysInMonth (y m : Nat) : Nat :=
  if m == 2 then (if isLeap y then 29 else 28)
  else if m == 4 || m == 6 || m == 9 || m == 11 then 30
  else 31

/-- Numeric value of an all-digit character list. -/
def digitsVal (s : List Char) : Nat :=
  s.foldl (fun n c => n * 10 + (c.toNat - 48)) 0

/-- From `app.py` line 436: `datetime.strptime(date_str, '%Y-%m-%d')`.
`%Y` matches exactly four digits, `%m` and `%d` one or two; the
constructed date must be a real calendar date (month 1-12, day within
the month, year at least 1), otherwise `ValueError`. -/
def parse_date (s : String) : Option SDate :=
  match splitPred (fun c => c == '-') s.data with
  | [ys, ms, ds] =>
      if ys.length == 4 && ys.all (fun c => c.isDigit)
          && 1 ≤ ms.length && ms.length ≤ 2 && ms.all (fun c => c.isDigit)
          && 1 ≤ ds.length && ds.length ≤ 2 && ds.all (fun c => c.isDigit) then
        let y := digitsVal ys
        let m := digitsVal ms
        let d := digitsVal ds
        if 1 ≤ y && 1 ≤ m && m ≤ 12 && 1 ≤ d && d ≤ daysInMonth y m then
          some ⟨y, m, d⟩
        else none
      else none
  | _ => none

/-- A route's outcome: a rendered page or an HTTP 404. -/
inductive HResp (α : Type) where
  | ok (body : α)
  | notFound
deriving DecidableEq, Repr

/-- From `app.py` lines 112-135: the paper-detail route; 404 when no row
has the requested external id. -/
def paper_detail (db : DB) (arxiv_id : String) : HResp PaperRow :=
  match db.papers.find? (fun p => p.arxiv_id == arxiv_id) with
  | none => HResp.notFound
  | some p => HResp.ok p

/-- From `app.py` lines 304-319 (404 region): the author route; 404 when no
author row has the requested name, otherwise the author's papers,
paged. -/
def author_papers (db : DB) (author_name : String) (page : Nat) :
    HResp (List PALink) :=
  match db.authors.find? (fun a => a.name == author_name) with
  | none => HResp.notFound
  | some a => HResp.ok (page_rows (db.paper_authors.filter
      (fun l => l.author_id == a.id)) page)

/-- From `app.py` lines 431-449: the papers-on-date route; 404 exactly when
the date string fails to parse as a valid calendar date. -/
def papers_by_date (db : DB) (date_str : String) : HResp (List PaperRow) :=
  match parse_date date_str with
  | none => HResp.notFound
  | some d => HResp.ok (db.papers.filter (fun p => p.published_date == d))

/-! ## Concrete states used in witnesses and counterexamples -/

/-- An empty, freshly initialised database. -/
def dbW : DB := ⟨[], [], [], [], [], 1, 1, 1⟩

/-- A concrete source record with two authors. -/
def recW : ArxivRec :=
  ⟨"http://arxiv.org/abs/2401.00001v1", "A Title", "An abstract",
   ⟨2024, 1, 2⟩, none, none, none, none, "math.CO", ["Alice A", "Bob B"]⟩

/-- The same external ID re-ingested with a changed author list. -/
def recW2 : ArxivRec :=
  ⟨"http://arxiv.org/abs/2401.00001v1", "A Title v2", "Another abstract",
   ⟨2024, 1, 3⟩, none, none, none, none, "math.CO", ["Carol C"]⟩

/-- A stored paper row used in the tagging scenarios. -/
def paperT : PaperRow :=
  ⟨1, "1234.5678", "A Title", "An abstract", ⟨2024, 1, 2⟩, none, none,
   none, none, "math.CO"⟩

/-- A stored tag row used in the tagging scenarios. -/
def tagT : TagRow := ⟨1, "foo", "personal", none⟩

/-- A state holding the paper and the tag but no Paper–Tag link. -/
def dbT : DB := ⟨[paperT], [], [], [tagT], [], 2, 1, 2⟩

/-- A stored paper whose external ID contains a `v` inside its base
(an old-style identifier) followed by a version marker. -/
def paperC7 : PaperRow :=
  ⟨1, "solv-int/9701001v1", "A Title", "An abstract", ⟨1997, 1, 2⟩, none,
   none, none, none, "solv-int"⟩

/-- A batch record whose upsert executes one statement and then
raises. -/
def recC3 : BatchRec Nat := ⟨[7], true⟩

/-! ## General list lemmas -/

/-- Appending a fresh element preserves `Nodup`. -/
theorem nodup_append_singleton {α : Type} {l : List α} {x : α}
    (h : l.Nodup) (hx : x ∉ l) : (l ++ [x]).Nodup := by
  rw [List.nodup_append]
  refine ⟨h, List.nodup_singleton x, ?_⟩
  intro y hy hy1
  rcases List.mem_singleton.mp hy1 with rfl
  exact hx hy

/-- The lookup `find?` returns the designated element when it is the only match. -/
theorem find_unique {α : Type} {p : α → Bool} {l : List α} {a : α}
    (ha : a ∈ l) (hp : p a = true) (huniq : ∀ b ∈ l, p b = true → b = a) :
    l.find? p = some a := by
  induction l with
  | nil => cases ha
  | cons b t ih =>
      rcases List.mem_cons.mp ha with rfl | hat
      · simp [List.find?_cons, hp]
      · by_cases hb : p b = true
        · have : b = a := huniq b (List.mem_cons_self b t) hb
          subst this
          simp [List.find?_cons, hb]
        · simp only [List.find?_cons]
          rw [Bool.eq_false_iff.mpr hb]
          exact ih hat (fun c hc => huniq c (List.mem_cons_of_mem b hc))

/-- When the key map is duplicate-free, filtering on the key of a
member yields exactly that member. -/
theorem filter_key_singleton {α β : Type} [BEq β] [LawfulBEq β]
    (f : α → β) {k : β} {l : List α} {a : α}
    (hnd : (l.map f).Nodup) (ha : a ∈ l) (hk : f a = k) :
    l.filter (fun x => f x == k) = [a] := by
  induction l with
  | nil => cases ha
  | cons b t ih =>
      rw [List.map_cons, List.nodup_cons] at hnd
      rcases List.mem_cons.mp ha with rfl | hat
      · rw [List.filter_cons]
        have hb : (f a == k) = true := beq_iff_eq.mpr hk
        rw [hb]
        simp only [if_true]
        have : t.filter (fun x => f x == k) = [] := by
          rw [List.filter_eq_nil_iff]
          intro c hc hck
          exact hnd.1 (hk ▸ beq_iff_eq.mp hck ▸ List.mem_map_of_mem f hc)
        rw [this]
      · rw [List.filter_cons]
        have hb : (f b == k) = false := by
          rw [Bool.eq_false_iff]
          intro hbk
          have : f b = f a := by rw [beq_iff_eq.mp hbk, hk]
          exact hnd.1 (this ▸ List.mem_map_of_mem f hat)
        rw [hb]
        simp only [Bool.false_eq_true, if_false]
        exact ih hnd.2 hat

/-- A filter of length one forces `find?` to succeed. -/
theorem find?_isSome_of_filter_length {α : Type} {p : α → Bool} {l : List α}
    (h : (l.filter p).length = 1) : ∃ a, l.find? p = some a := by
  cases hf : l.find? p with
  | some a => exact ⟨a, rfl⟩
  | none =>
      rw [List.find?_eq_none] at hf
      rw [List.filter_eq_nil_iff.mpr hf] at h
      cases h

/-! ## Author-resolution lemmas -/

/-- Unfolding `authorName` at a successful lookup. -/
theorem authorName_elim {db : DB} {aid : Nat} {n : String}
    (h : authorName db aid = some n) :
    ∃ a ∈ db.authors, a.id = aid ∧ a.name = n := by
  unfold authorName at h
  cases hf : db.authors.find? (fun a => a.id == aid) with
  | none => rw [hf] at h; cases h
  | some a =>
      rw [hf] at h
      have hbeq := List.find?_some hf
      simp only [beq_iff_eq] at hbeq
      refine ⟨a, List.mem_of_find?_eq_some hf, hbeq, ?_⟩
      cases h; rfl

/-- With unique ids, any author row is what its id resolves to. -/
theorem authorName_of_mem {db : DB} {a : AuthorRow}
    (hid : (db.authors.map (fun x => x.id)).Nodup) (ha : a ∈ db.authors) :
    authorName db a.id = some a.name := by
  have hfind : db.authors.find? (fun x => x.id == a.id) = some a := by
    refine find_unique ha (by simp) ?_
    intro b hb hbeq
    simp only [beq_iff_eq] at hbeq
    exact List.inj_on_of_nodup_map hid hb ha hbeq
  unfold authorName
  rw [hfind]
  rfl

/-- With unique names, a resolved name looks back up to the same id. -/
theorem theAuthorId_of_authorName {db : DB} {aid : Nat} {n : String}
    (hname : (db.authors.map (fun x => x.name)).Nodup)
    (h : authorName db aid = some n) :
    theAuthorId db n = aid := by
  obtain ⟨a, ha, haid, hn⟩ := authorName_elim h
  have hfind : db.authors.find? (fun x => x.name == n) = some a := by
    refine find_unique ha (by simp [hn]) ?_
    intro b hb hbeq
    simp only [beq_iff_eq] at hbeq
    exact List.inj_on_of_nodup_map hname hb ha (by rw [hbeq, hn])
  unfold theAuthorId
  rw [hfind]
  exact haid

/-- Resolution of an already-allocated id is unaffected by appending
rows whose ids are at least `bound`. -/
theorem authorName_append {db db' : DB} {extra : List AuthorRow} {bound aid : Nat}
    (h : db'.authors = db.authors ++ extra)
    (hextra : ∀ a ∈ extra, bound ≤ a.id) (haid : aid < bound) :
    authorName db' aid = authorName db aid := by
  unfold authorName
  rw [h, List.find?_append]
  have hnone : extra.find? (fun a => a.id == aid) = none := by
    rw [List.find?_eq_none]
    intro a ha hbeq
    simp only [beq_iff_eq] at hbeq
    have := hextra a ha
    omega
  rw [hnone, Option.or_none]

/-- Full specification of the author get-or-create step: it preserves
well-formedness and every other table, only ever appends fresh author
rows, and the returned id resolves to the requested name. -/
theorem getOrCreateAuthor_spec (n : String) (db : DB) (hW : WF db) :
    WF (getOrCreateAuthor n db).2 ∧
    (getOrCreateAuthor n db).2.papers = db.papers ∧
    (getOrCreateAuthor n db).2.paper_authors = db.paper_authors ∧
    (getOrCreateAuthor n db).2.tags = db.tags ∧
    (getOrCreateAuthor n db).2.paper_tags = db.paper_tags ∧
    (getOrCreateAuthor n db).2.nextPaperId = db.nextPaperId ∧
    (getOrCreateAuthor n db).2.nextTagId = db.nextTagId ∧
    db.nextAuthorId ≤ (getOrCreateAuthor n db).2.nextAuthorId ∧
    (getOrCreateAuthor n db).1 < (getOrCreateAuthor n db).2.nextAuthorId ∧
    authorName (getOrCreateAuthor n db).2 (getOrCreateAuthor n db).1 = some n ∧
    ∃ extra, (getOrCreateAuthor n db).2.authors = db.authors ++ extra ∧
      ∀ a ∈ extra, db.nextAuthorId ≤ a.id ∧ a.name = n ∧
        a.name ∉ db.authors.map (fun x => x.name) := by
  cases hf : db.authors.find? (fun a => a.name == n) with
  | some a =>
      have hr : getOrCreateAuthor n db = (a.id, db) := by
        unfold getOrCreateAuthor
        rw [hf]
      rw [hr]
      have ha : a ∈ db.authors := List.mem_of_find?_eq_some hf
      have hn : a.name = n := by
        have := List.find?_some hf
        simpa [beq_iff_eq] using this
      refine ⟨hW, rfl, rfl, rfl, rfl, rfl, rfl, le_refl _, hW.authorsLt a ha, ?_, [], by simp, by simp⟩
      rw [authorName_of_mem hW.authorsId ha, hn]
  | none =>
      have hr : getOrCreateAuthor n db =
          (db.nextAuthorId,
           { db with authors := db.authors ++ [⟨db.nextAuthorId, n⟩],
                     nextAuthorId := db.nextAuthorId + 1 }) := by
        unfold getOrCreateAuthor
        rw [hf]
      rw [hr]
      have hnotin : n ∉ db.authors.map (fun x => x.name) := by
        rw [List.find?_eq_none] at hf
        intro hmem
        obtain ⟨a, ha, han⟩ := List.mem_map.mp hmem
        exact hf a ha (beq_iff_eq.mpr han)
      have hWnew : WF { db with authors := db.authors ++ [⟨db.nextAuthorId, n⟩],
                                nextAuthorId := db.nextAuthorId + 1 } := by
        constructor
        · exact hW.papersKey
        · exact hW.papersId
        · exact hW.papersLt
        · simp only [List.map_append, List.map_cons, List.map_nil]
          exact nodup_append_singleton hW.authorsKey hnotin
        · simp only [List.map_append, List.map_cons, List.map_nil]
          refine nodup_append_singleton hW.authorsId ?_
          intro hmem
          obtain ⟨a, ha, han⟩ := List.mem_map.mp hmem
          exact absurd han (Nat.ne_of_lt (hW.authorsLt a ha))
        · intro a ha
          rcases List.mem_append.mp ha with h1 | h1
          · exact Nat.lt_succ_of_lt (hW.authorsLt a h1)
          · rcases List.mem_singleton.mp h1 with rfl
            exact Nat.lt_succ_self _
        · exact hW.linksKey
        · exact hW.linksPaperLt
        · intro l hl
          exact Nat.lt_succ_of_lt (hW.linksAuthorLt l hl)
        · exact hW.tagsKey
        · exact hW.tagsId
        · exact hW.tagsLt
        · exact hW.ptKey
      refine ⟨hWnew, rfl, rfl, rfl, rfl, rfl, rfl, Nat.le_succ _, Nat.lt_succ_self _, ?_, ?_⟩
      · unfold authorName
        simp only []
        rw [List.find?_append]
        have h1 : db.authors.find? (fun a => a.id == db.nextAuthorId) = none := by
          rw [List.find?_eq_none]
          intro a ha hbeq
          simp only [beq_iff_eq] at hbeq
          exact absurd hbeq (Nat.ne_of_lt (hW.authorsLt a ha))
        rw [h1]
        simp [List.find?_cons]
      · exact ⟨[⟨db.nextAuthorId, n⟩], rfl, by
          intro a ha
          rcases List.mem_singleton.mp ha with rfl
          exact ⟨le_refl _, rfl, hnotin⟩⟩

/-- An `INSERT IGNORE` inserts when no row with the key exists. -/
theorem insertIgnoreLink_of_not_exists {pid aid ord : Nat} {db : DB}
    (h : (db.paper_authors.any
      (fun l => l.paper_id == pid && l.author_id == aid)) = false) :
    insertIgnoreLink pid aid ord db = appendLink db ⟨pid, aid, ord⟩ := by
  unfold insertIgnoreLink appendLink
  rw [h]
  simp

/-- Full specification of the author loop: starting from any
well-formed state it preserves well-formedness and every unrelated
table, appends only fresh author rows named by the processed list,
and appends exactly one link row per author, carrying the requested
consecutive ordinals, provided the processed names are distinct and
no existing link of this paper already resolves to one of them. -/
theorem addAuthors_spec (pid : Nat) (names : List String) : ∀ (ord : Nat) (db : DB),
    WF db → names.Nodup → pid < db.nextPaperId →
    (∀ l ∈ db.paper_authors, l.paper_id = pid →
       ∀ m ∈ names, authorName db l.author_id ≠ some m) →
    WF (addAuthors pid names ord db) ∧
    (addAuthors pid names ord db).papers = db.papers ∧
    (addAuthors pid names ord db).tags = db.tags ∧
    (addAuthors pid names ord db).paper_tags = db.paper_tags ∧
    (addAuthors pid names ord db).nextPaperId = db.nextPaperId ∧
    (addAuthors pid names ord db).nextTagId = db.nextTagId ∧
    db.nextAuthorId ≤ (addAuthors pid names ord db).nextAuthorId ∧
    (∀ m ∈ names, m ∈ (addAuthors pid names ord db).authors.map (fun a => a.name)) ∧
    (∃ extra, (addAuthors pid names ord db).authors = db.authors ++ extra ∧
       ∀ a ∈ extra, db.nextAuthorId ≤ a.id ∧ a.name ∈ names ∧
         a.name ∉ db.authors.map (fun x => x.name)) ∧
    (∃ newL, (addAuthors pid names ord db).paper_authors = db.paper_authors ++ newL ∧
       (∀ l ∈ newL, l.paper_id = pid) ∧
       newL.map (linkProj (addAuthors pid names ord db)) = expectedProj names ord) := by
  induction names with
  | nil =>
      intro ord db hW _ _ _
      exact ⟨hW, rfl, rfl, rfl, rfl, rfl, le_refl _, by simp,
        ⟨[], by simp [addAuthors], by simp⟩, ⟨[], by simp [addAuthors], by simp, rfl⟩⟩
  | cons n rest ih =>
      intro ord db hW hN hpid hfresh
      obtain ⟨hnrest, hrestN⟩ := List.nodup_cons.mp hN
      obtain ⟨hW1, hp1, hpa1, ht1, hpt1, hnp1, hnt1, hle1, hlt1, hname1,
        extra1, hauth1, hextra1⟩ := getOrCreateAuthor_spec n db hW
      have hstab1 : ∀ aid < db.nextAuthorId,
          authorName (getOrCreateAuthor n db).2 aid = authorName db aid := by
        intro aid haid
        exact authorName_append hauth1 (fun a ha => (hextra1 a ha).1) haid
      have hnotany : ((getOrCreateAuthor n db).2.paper_authors.any
          (fun l => l.paper_id == pid && l.author_id == (getOrCreateAuthor n db).1))
          = false := by
        rw [← Bool.not_eq_true]
        intro hany
        obtain ⟨l, hl, hlp⟩ := List.any_eq_true.mp hany
        simp only [Bool.and_eq_true, beq_iff_eq] at hlp
        rw [hpa1] at hl
        have h1 : authorName db l.author_id ≠ some n :=
          hfresh l hl hlp.1 n (List.mem_cons_self n rest)
        have h2 : authorName db l.author_id = some n := by
          rw [← hstab1 l.author_id (hW.linksAuthorLt l hl), hlp.2]
          exact hname1
        exact h1 h2
      have hstep : addAuthors pid (n :: rest) ord db =
          addAuthors pid rest (ord + 1)
            (appendLink (getOrCreateAuthor n db).2
              ⟨pid, (getOrCreateAuthor n db).1, ord⟩) := by
        conv_lhs => simp only [addAuthors]
        rw [insertIgnoreLink_of_not_exists hnotany]
      set d1 : DB := (getOrCreateAuthor n db).2 with hd1
      set aid : Nat := (getOrCreateAuthor n db).1 with haid
      set d2 : DB := appendLink d1 ⟨pid, aid, ord⟩ with hd2
      have hd2pa : d2.paper_authors = d1.paper_authors ++ [⟨pid, aid, ord⟩] := rfl
      have hkeyfresh : (pid, aid) ∉
          d1.paper_authors.map (fun l => (l.paper_id, l.author_id)) := by
        intro hmem
        obtain ⟨l, hl, hlk⟩ := List.mem_map.mp hmem
        have : (d1.paper_authors.any
            (fun l => l.paper_id == pid && l.author_id == aid)) = true := by
          refine List.any_eq_true.mpr ⟨l, hl, ?_⟩
          have h1 : l.paper_id = pid := congrArg Prod.fst hlk
          have h2 : l.author_id = aid := congrArg Prod.snd hlk
          simp [h1, h2]
        rw [this] at hnotany
        cases hnotany
      have hW2 : WF d2 := by
        constructor
        · exact hW1.papersKey
        · exact hW1.papersId
        · exact hW1.papersLt
        · exact hW1.authorsKey
        · exact hW1.authorsId
        · exact hW1.authorsLt
        · rw [hd2pa, List.map_append, List.map_cons, List.map_nil]
          exact nodup_append_singleton hW1.linksKey hkeyfresh
        · intro l hl
          rw [hd2pa] at hl
          rcases List.mem_append.mp hl with h1 | h1
          · exact hW1.linksPaperLt l h1
          · rcases List.mem_singleton.mp h1 with rfl
            show pid < d1.nextPaperId
            rw [hnp1]
            exact hpid
        · intro l hl
          rw [hd2pa] at hl
          rcases List.mem_append.mp hl with h1 | h1
          · exact hW1.linksAuthorLt l h1
          · rcases List.mem_singleton.mp h1 with rfl
            exact hlt1
        · exact hW1.tagsKey
        · exact hW1.tagsId
        · exact hW1.tagsLt
        · exact hW1.ptKey
      have hd2authors : d2.authors = d1.authors := rfl
      have hANd2 : ∀ x, authorName d2 x = authorName d1 x := fun _ => rfl
      have hfresh2 : ∀ l ∈ d2.paper_authors, l.paper_id = pid →
          ∀ m ∈ rest, authorName d2 l.author_id ≠ some m := by
        intro l hl hlp m hm hcontra
        rw [hANd2] at hcontra
        rw [hd2pa] at hl
        rcases List.mem_append.mp hl with h1 | h1
        · rw [hpa1] at h1
          have := hfresh l h1 hlp m (List.mem_cons_of_mem n hm)
          rw [hstab1 l.author_id (hW.linksAuthorLt l h1)] at hcontra
          exact this hcontra
        · rcases List.mem_singleton.mp h1 with rfl
          rw [hname1] at hcontra
          cases hcontra
          exact hnrest hm
      obtain ⟨hW', hp', ht', hpt', hnp', hnt', hle', hmem',
        ⟨extra2, hauth2, hextra2⟩, ⟨newL2, hlinks2, hpid2, hproj2⟩⟩ :=
        ih (ord + 1) d2 hW2 hrestN
          (by show pid < d1.nextPaperId; rw [hnp1]; exact hpid) hfresh2
      rw [hstep]
      have hstab2 : authorName (addAuthors pid rest (ord + 1) d2) aid =
          authorName d2 aid := by
        refine authorName_append hauth2 (fun a ha => (hextra2 a ha).1) ?_
        exact hlt1
      refine ⟨hW', ?_, ?_, ?_, ?_, ?_, ?_, ?_, ?_, ?_⟩
      · rw [hp']; exact hp1
      · rw [ht']; exact ht1
      · rw [hpt']; exact hpt1
      · rw [hnp']; exact hnp1
      · rw [hnt']; exact hnt1
      · calc db.nextAuthorId ≤ d1.nextAuthorId := hle1
          _ ≤ _ := hle'
      · intro m hm
        rcases List.mem_cons.mp hm with rfl | hmr
        · obtain ⟨a, ha, haeq, hanm⟩ := authorName_elim hname1
          rw [hauth2, hd2authors]
          simp only [List.map_append, List.mem_append]
          exact Or.inl (List.mem_map.mpr ⟨a, ha, hanm⟩)
        · exact hmem' m hmr
      · refine ⟨extra1 ++ extra2, ?_, ?_⟩
        · rw [hauth2, hd2authors, hauth1, List.append_assoc]
        · intro a ha
          rcases List.mem_append.mp ha with h1 | h1
          · obtain ⟨hge, hnm, hnin⟩ := hextra1 a h1
            exact ⟨hge, by rw [hnm]; exact List.mem_cons_self n rest, hnin⟩
          · obtain ⟨hge, hnm, hnin⟩ := hextra2 a h1
            refine ⟨le_trans hle1 hge, List.mem_cons_of_mem n hnm, ?_⟩
            rw [hd2authors, hauth1] at hnin
            simp only [List.map_append, List.mem_append] at hnin
            intro hc
            exact hnin (Or.inl hc)
      · refine ⟨⟨pid, aid, ord⟩ :: newL2, ?_, ?_, ?_⟩
        · rw [hlinks2, hd2pa, hpa1, List.append_assoc]
          rfl
        · intro l hl
          rcases List.mem_cons.mp hl with rfl | h1
          · rfl
          · exact hpid2 l h1
        · rw [List.map_cons, hproj2]
          show (authorName (addAuthors pid rest (ord + 1) d2) aid, ord) ::
            expectedProj rest (ord + 1) = expectedProj (n :: rest) ord
          rw [hstab2, hANd2, hname1]
          rfl

/-- The update branch preserves well-formedness, leaves the key and id
columns of `papers` untouched, clears this paper's links, and leaves
exactly one row carrying the record's external id. -/
theorem updateBranch_spec (rec : ArxivRec) {row : PaperRow} {db : DB} (hW : WF db)
    (hf : db.papers.find? (fun p => p.arxiv_id == extract_arxiv_id rec.entry_id)
      = some row) :
    WF (updateBranch rec row.id db) ∧
    linksFor (updateBranch rec row.id db) row.id = [] ∧
    (updateBranch rec row.id db).papers.filter
      (fun p => p.arxiv_id == extract_arxiv_id rec.entry_id) = [updatePaper rec row] := by
  have hrow : row ∈ db.papers := List.mem_of_find?_eq_some hf
  have hrowx : row.arxiv_id = extract_arxiv_id rec.entry_id := by
    have := List.find?_some hf
    simpa [beq_iff_eq] using this
  have hmapx : (updateBranch rec row.id db).papers.map (fun p => p.arxiv_id)
      = db.papers.map (fun p => p.arxiv_id) := by
    show (db.papers.map _).map _ = _
    rw [List.map_map]
    refine List.map_congr_left ?_
    intro p _
    by_cases h : p.id = row.id <;> simp [updatePaper, h]
  have hmapid : (updateBranch rec row.id db).papers.map (fun p => p.id)
      = db.papers.map (fun p => p.id) := by
    show (db.papers.map _).map _ = _
    rw [List.map_map]
    refine List.map_congr_left ?_
    intro p _
    by_cases h : p.id = row.id <;> simp [updatePaper, h]
  refine ⟨?_, ?_, ?_⟩
  · constructor
    · rw [hmapx]; exact hW.papersKey
    · rw [hmapid]; exact hW.papersId
    · intro p hp
      obtain ⟨q, hq, hqp⟩ := List.mem_map.mp hp
      have : p.id = q.id := by
        rw [← hqp]
        by_cases h : q.id = row.id <;> simp [updatePaper, h]
      rw [this]
      exact hW.papersLt q hq
    · exact hW.authorsKey
    · exact hW.authorsId
    · exact hW.authorsLt
    · exact hW.linksKey.sublist ((List.filter_sublist _).map _)
    · intro l hl
      exact hW.linksPaperLt l (List.mem_filter.mp hl).1
    · intro l hl
      exact hW.linksAuthorLt l (List.mem_filter.mp hl).1
    · exact hW.tagsKey
    · exact hW.tagsId
    · exact hW.tagsLt
    · exact hW.ptKey
  · rw [linksFor, List.filter_eq_nil_iff]
    intro l hl
    have := (List.mem_filter.mp hl).2
    simp only [Bool.not_eq_eq_eq_not, Bool.not_true] at this
    simp [this]
  · have hnd : ((updateBranch rec row.id db).papers.map (fun p => p.arxiv_id)).Nodup := by
      rw [hmapx]; exact hW.papersKey
    have hmem : updatePaper rec row ∈ (updateBranch rec row.id db).papers := by
      refine List.mem_map.mpr ⟨row, hrow, ?_⟩
      simp [updatePaper]
    have hkey : (fun p => p.arxiv_id) (updatePaper rec row)
        = extract_arxiv_id rec.entry_id := by
      show (updatePaper rec row).arxiv_id = _
      rw [show (updatePaper rec row).arxiv_id = row.arxiv_id from rfl, hrowx]
    exact filter_key_singleton (fun p => p.arxiv_id) hnd hmem hkey

/-- The insert branch preserves well-formedness; the fresh id has no
links yet and exactly one row carries the record's external id. -/
theorem insertBranch_spec (rec : ArxivRec) {db : DB} (hW : WF db)
    (hf : db.papers.find? (fun p => p.arxiv_id == extract_arxiv_id rec.entry_id)
      = none) :
    WF (insertBranch rec db) ∧
    linksFor (insertBranch rec db) db.nextPaperId = [] ∧
    (insertBranch rec db).papers.filter
      (fun p => p.arxiv_id == extract_arxiv_id rec.entry_id)
      = [newPaperRow rec db.nextPaperId] := by
  rw [List.find?_eq_none] at hf
  have hxnotin : extract_arxiv_id rec.entry_id ∉ db.papers.map (fun p => p.arxiv_id) := by
    intro hmem
    obtain ⟨p, hp, hpx⟩ := List.mem_map.mp hmem
    exact hf p hp (beq_iff_eq.mpr hpx)
  refine ⟨?_, ?_, ?_⟩
  · constructor
    · show ((db.papers ++ [newPaperRow rec db.nextPaperId]).map (fun p => p.arxiv_id)).Nodup
      rw [List.map_append, List.map_cons, List.map_nil]
      exact nodup_append_singleton hW.papersKey hxnotin
    · show ((db.papers ++ [newPaperRow rec db.nextPaperId]).map (fun p => p.id)).Nodup
      rw [List.map_append, List.map_cons, List.map_nil]
      refine nodup_append_singleton hW.papersId ?_
      intro hmem
      obtain ⟨p, hp, hpx⟩ := List.mem_map.mp hmem
      exact absurd hpx (Nat.ne_of_lt (hW.papersLt p hp))
    · intro p hp
      rcases List.mem_append.mp hp with h1 | h1
      · exact Nat.lt_succ_of_lt (hW.papersLt p h1)
      · rcases List.mem_singleton.mp h1 with rfl
        exact Nat.lt_succ_self _
    · exact hW.authorsKey
    · exact hW.authorsId
    · exact hW.authorsLt
    · exact hW.linksKey
    · intro l hl
      exact Nat.lt_succ_of_lt (hW.linksPaperLt l hl)
    · exact hW.linksAuthorLt
    · exact hW.tagsKey
    · exact hW.tagsId
    · exact hW.tagsLt
    · exact hW.ptKey
  · rw [linksFor, List.filter_eq_nil_iff]
    intro l hl
    have := hW.linksPaperLt l hl
    simp only [beq_iff_eq]
    omega
  · show (db.papers ++ [newPaperRow rec db.nextPaperId]).filter _ = _
    rw [List.filter_append]
    have h1 : db.papers.filter
        (fun p => p.arxiv_id == extract_arxiv_id rec.entry_id) = [] := by
      rw [List.filter_eq_nil_iff]
      exact hf
    have h2 : [newPaperRow rec db.nextPaperId].filter
        (fun p => p.arxiv_id == extract_arxiv_id rec.entry_id)
        = [newPaperRow rec db.nextPaperId] := by
      rw [List.filter_eq_self]
      intro a ha
      rcases List.mem_singleton.mp ha with rfl
      simp [newPaperRow]
    rw [h1, h2, List.nil_append]

/-- A paper with no link rows imposes no freshness constraint. -/
theorem no_link_mem {d : DB} {pid : Nat} (h : linksFor d pid = []) :
    ∀ l ∈ d.paper_authors, l.paper_id ≠ pid := by
  intro l hl hlp
  have : l ∈ linksFor d pid :=
    List.mem_filter.mpr ⟨hl, beq_iff_eq.mpr hlp⟩
  rw [h] at this
  cases this

/-- Specification of one upsert call on a well-formed state with a
duplicate-free author list: the result is well-formed; exactly one
`papers` row carries the record's external id and it is the returned
row id; the links of that paper are exactly one per listed author
with 1-based ordinals in source order; the tag tables are untouched;
and the author table only gains rows named in the record. -/
theorem insert_or_update_paper_spec (rec : ArxivRec) (db : DB)
    (hW : WF db) (hN : rec.authors.Nodup) :
    WF (insert_or_update_paper rec db).2 ∧
    ((insert_or_update_paper rec db).2.papers.filter
      (fun p => p.arxiv_id == extract_arxiv_id rec.entry_id)).length = 1 ∧
    (∀ p ∈ (insert_or_update_paper rec db).2.papers,
      p.arxiv_id = extract_arxiv_id rec.entry_id →
      p.id = (insert_or_update_paper rec db).1) ∧
    (linksFor (insert_or_update_paper rec db).2 (insert_or_update_paper rec db).1).map
      (linkProj (insert_or_update_paper rec db).2) = expectedProj rec.authors 1 ∧
    (insert_or_update_paper rec db).2.tags = db.tags ∧
    (insert_or_update_paper rec db).2.paper_tags = db.paper_tags ∧
    (∀ m ∈ rec.authors,
      m ∈ (insert_or_update_paper rec db).2.authors.map (fun a => a.name)) ∧
    (∃ extra, (insert_or_update_paper rec db).2.authors = db.authors ++ extra ∧
      ∀ a ∈ extra, a.name ∈ rec.authors ∧
        a.name ∉ db.authors.map (fun x => x.name)) := by
  cases hf : db.papers.find? (fun p => p.arxiv_id == extract_arxiv_id rec.entry_id) with
  | some row =>
      have hr : insert_or_update_paper rec db
          = (row.id, addAuthors row.id rec.authors 1 (updateBranch rec row.id db)) := by
        unfold insert_or_update_paper
        rw [hf]
      rw [hr]
      obtain ⟨hWu, hlinks0, hfilter⟩ := updateBranch_spec rec hW hf
      have hpid : row.id < (updateBranch rec row.id db).nextPaperId :=
        hW.papersLt row (List.mem_of_find?_eq_some hf)
      have hfresh : ∀ l ∈ (updateBranch rec row.id db).paper_authors,
          l.paper_id = row.id → ∀ m ∈ rec.authors,
          authorName (updateBranch rec row.id db) l.author_id ≠ some m := by
        intro l hl hlp
        exact absurd hlp (no_link_mem hlinks0 l hl)
      obtain ⟨hW', hp', ht', hpt', hnp', hnt', hle', hmem',
        ⟨extra, hauth, hextra⟩, ⟨newL, hlinksL, hpidL, hproj⟩⟩ :=
        addAuthors_spec row.id rec.authors 1 (updateBranch rec row.id db)
          hWu hN hpid hfresh
      have hlinkseq : linksFor
          (addAuthors row.id rec.authors 1 (updateBranch rec row.id db)) row.id
          = newL := by
        rw [linksFor, hlinksL, List.filter_append]
        rw [linksFor] at hlinks0
        rw [hlinks0, List.nil_append]
        exact List.filter_eq_self.mpr (fun l hl => beq_iff_eq.mpr (hpidL l hl))
      refine ⟨hW', ?_, ?_, ?_, ?_, ?_, ?_, ?_⟩
      · rw [hp', hfilter]
        rfl
      · intro p hp hpx
        rw [hp'] at hp
        have : p ∈ (updateBranch rec row.id db).papers.filter
            (fun q => q.arxiv_id == extract_arxiv_id rec.entry_id) :=
          List.mem_filter.mpr ⟨hp, beq_iff_eq.mpr hpx⟩
        rw [hfilter] at this
        rw [List.mem_singleton.mp this]
        rfl
      · rw [hlinkseq]
        exact hproj
      · exact ht'
      · exact hpt'
      · exact hmem'
      · exact ⟨extra, hauth, fun a ha => ⟨(hextra a ha).2.1, (hextra a ha).2.2⟩⟩
  | none =>
      have hr : insert_or_update_paper rec db
          = (db.nextPaperId,
             addAuthors db.nextPaperId rec.authors 1 (insertBranch rec db)) := by
        unfold insert_or_update_paper
        rw [hf]
      rw [hr]
      obtain ⟨hWi, hlinks0, hfilter⟩ := insertBranch_spec rec hW hf
      have hpid : db.nextPaperId < (insertBranch rec db).nextPaperId :=
        Nat.lt_succ_self _
      have hfresh : ∀ l ∈ (insertBranch rec db).paper_authors,
          l.paper_id = db.nextPaperId → ∀ m ∈ rec.authors,
          authorName (insertBranch rec db) l.author_id ≠ some m := by
        intro l hl hlp
        exact absurd hlp (no_link_mem hlinks0 l hl)
      obtain ⟨hW', hp', ht', hpt', hnp', hnt', hle', hmem',
        ⟨extra, hauth, hextra⟩, ⟨newL, hlinksL, hpidL, hproj⟩⟩ :=
        addAuthors_spec db.nextPaperId rec.authors 1 (insertBranch rec db)
          hWi hN hpid hfresh
      have hlinkseq : linksFor
          (addAuthors db.nextPaperId rec.authors 1 (insertBranch rec db)) db.nextPaperId
          = newL := by
        rw [linksFor, hlinksL, List.filter_append]
        rw [linksFor] at hlinks0
        rw [hlinks0, List.nil_append]
        exact List.filter_eq_self.mpr (fun l hl => beq_iff_eq.mpr (hpidL l hl))
      refine ⟨hW', ?_, ?_, ?_, ?_, ?_, ?_, ?_⟩
      · rw [hp', hfilter]
        rfl
      · intro p hp hpx
        rw [hp'] at hp
        have : p ∈ (insertBranch rec db).papers.filter
            (fun q => q.arxiv_id == extract_arxiv_id rec.entry_id) :=
          List.mem_filter.mpr ⟨hp, beq_iff_eq.mpr hpx⟩
        rw [hfilter] at this
        rw [List.mem_singleton.mp this]
        rfl
      · rw [hlinkseq]
        exact hproj
      · exact ht'
      · exact hpt'
      · exact hmem'
      · exact ⟨extra, hauth, fun a ha => ⟨(hextra a ha).2.1, (hextra a ha).2.2⟩⟩

/-- A link list whose observable content matches an author list is
determined row by row: each link is the paper, the id the `authors`
table assigns to that author, and the running ordinal. -/
theorem links_determined {db : DB} {pid : Nat} (names : List String) :
    ∀ (ord : Nat) (L : List PALink),
    (db.authors.map (fun x => x.name)).Nodup →
    (∀ l ∈ L, l.paper_id = pid) →
    L.map (linkProj db) = expectedProj names ord →
    L = expectedLinks db pid names ord := by
  induction names with
  | nil =>
      intro ord L _ _ h
      simp only [expectedProj] at h
      rw [List.map_eq_nil_iff] at h
      rw [h]
      rfl
  | cons n rest ih =>
      intro ord L hnames hsub h
      cases L with
      | nil =>
          rw [List.map_nil] at h
          rw [show expectedProj (n :: rest) ord
            = (some n, ord) :: expectedProj rest (ord + 1) from rfl] at h
          cases h
      | cons l L' =>
          rw [List.map_cons] at h
          rw [show expectedProj (n :: rest) ord
            = (some n, ord) :: expectedProj rest (ord + 1) from rfl] at h
          injection h with h1 h2
          have hname : authorName db l.author_id = some n := congrArg Prod.fst h1
          have hord : l.author_order = ord := congrArg Prod.snd h1
          have haid : theAuthorId db n = l.author_id :=
            theAuthorId_of_authorName hnames hname
          have hpid' : l.paper_id = pid := hsub l (List.mem_cons_self l L')
          have htail : L' = expectedLinks db pid rest (ord + 1) :=
            ih (ord + 1) L' hnames
              (fun x hx => hsub x (List.mem_cons_of_mem l hx)) h2
          show l :: L' = ⟨pid, theAuthorId db n, ord⟩ :: expectedLinks db pid rest (ord + 1)
          rw [← htail]
          obtain ⟨lp, la, lo⟩ := l
          simp only [List.cons.injEq, PALink.mk.injEq]
          exact ⟨⟨hpid', haid.symm, hord⟩, trivial⟩

/-- The function `expectedLinks` depends on the state only through the author table. -/
theorem expectedLinks_congr {db1 db2 : DB} (h : db1.authors = db2.authors)
    (pid : Nat) (names : List String) :
    ∀ ord : Nat, expectedLinks db1 pid names ord = expectedLinks db2 pid names ord := by
  induction names with
  | nil => intro ord; rfl
  | cons n rest ih =>
      intro ord
      simp only [expectedLinks]
      rw [ih (ord + 1)]
      have : theAuthorId db1 n = theAuthorId db2 n := by
        unfold theAuthorId
        rw [h]
      rw [this]

/-- The upsert takes its update branch when the lookup succeeds. -/
theorem insert_or_update_paper_of_found {rec : ArxivRec} {db : DB} {row : PaperRow}
    (hf : db.papers.find? (fun p => p.arxiv_id == extract_arxiv_id rec.entry_id)
      = some row) :
    insert_or_update_paper rec db
      = (row.id, addAuthors row.id rec.authors 1 (updateBranch rec row.id db)) := by
  unfold insert_or_update_paper
  rw [hf]

/-- Claim C1: after upserting a source record with external ID x, exactly
one `papers` row carries x, and the author links of that paper are
exactly one per listed author with 1-based ordinals in source order;
upserting the identical record again leaves one row, the same paper,
and literally the same link rows; and re-upserting a record with the
same external ID but any other (duplicate-free) author list leaves the
links of that paper exactly matching the new list — every previously
stored link is gone.  Hypotheses: the starting state is well-formed
and the author lists are duplicate-free. -/
theorem upsert_row_and_links_exact (rec rec' : ArxivRec) (db : DB)
    (hW : WF db) (hN : rec.authors.Nodup) (hN' : rec'.authors.Nodup)
    (hx : extract_arxiv_id rec'.entry_id = extract_arxiv_id rec.entry_id) :
    ((insert_or_update_paper rec db).2.papers.filter
      (fun p => p.arxiv_id == extract_arxiv_id rec.entry_id)).length = 1 ∧
    (linksFor (insert_or_update_paper rec db).2 (insert_or_update_paper rec db).1).map
      (linkProj (insert_or_update_paper rec db).2) = expectedProj rec.authors 1 ∧
    ((insert_or_update_paper rec (insert_or_update_paper rec db).2).2.papers.filter
      (fun p => p.arxiv_id == extract_arxiv_id rec.entry_id)).length = 1 ∧
    (insert_or_update_paper rec (insert_or_update_paper rec db).2).1
      = (insert_or_update_paper rec db).1 ∧
    linksFor (insert_or_update_paper rec (insert_or_update_paper rec db).2).2
        (insert_or_update_paper rec db).1
      = linksFor (insert_or_update_paper rec db).2 (insert_or_update_paper rec db).1 ∧
    ((insert_or_update_paper rec' (insert_or_update_paper rec db).2).2.papers.filter
      (fun p => p.arxiv_id == extract_arxiv_id rec.entry_id)).length = 1 ∧
    (linksFor (insert_or_update_paper rec' (insert_or_update_paper rec db).2).2
        (insert_or_update_paper rec' (insert_or_update_paper rec db).2).1).map
      (linkProj (insert_or_update_paper rec' (insert_or_update_paper rec db).2).2)
      = expectedProj rec'.authors 1 := by
  obtain ⟨hW1, hlen1, hids1, hproj1, htags1, hpt1, hnames1, extra1, hauth1, hextra1⟩ :=
    insert_or_update_paper_spec rec db hW hN
  obtain ⟨hW2, hlen2, hids2, hproj2, htags2, hpt2, hnames2, extra2, hauth2, hextra2⟩ :=
    insert_or_update_paper_spec rec (insert_or_update_paper rec db).2 hW1 hN
  obtain ⟨hW3, hlen3, hids3, hproj3, htags3, hpt3, hnames3, extra3, hauth3, hextra3⟩ :=
    insert_or_update_paper_spec rec' (insert_or_update_paper rec db).2 hW1 hN'
  obtain ⟨row2, hf2⟩ := find?_isSome_of_filter_length hlen1
  have hr2 := insert_or_update_paper_of_found hf2
  have hrow2x : row2.arxiv_id = extract_arxiv_id rec.entry_id := by
    have := List.find?_some hf2
    simpa [beq_iff_eq] using this
  have heq : (insert_or_update_paper rec (insert_or_update_paper rec db).2).1
      = (insert_or_update_paper rec db).1 := by
    rw [hr2]
    exact hids1 row2 (List.mem_of_find?_eq_some hf2) hrow2x
  have hsub1 : ∀ l ∈ linksFor (insert_or_update_paper rec db).2
      (insert_or_update_paper rec db).1, l.paper_id
      = (insert_or_update_paper rec db).1 :=
    fun l hl => beq_iff_eq.mp (List.mem_filter.mp hl).2
  have hL1 : linksFor (insert_or_update_paper rec db).2 (insert_or_update_paper rec db).1
      = expectedLinks (insert_or_update_paper rec db).2
          (insert_or_update_paper rec db).1 rec.authors 1 :=
    links_determined rec.authors 1 _ hW1.authorsKey hsub1 hproj1
  rw [heq] at hproj2
  have hsub2 : ∀ l ∈ linksFor
      (insert_or_update_paper rec (insert_or_update_paper rec db).2).2
      (insert_or_update_paper rec db).1, l.paper_id
      = (insert_or_update_paper rec db).1 :=
    fun l hl => beq_iff_eq.mp (List.mem_filter.mp hl).2
  have hL2 : linksFor (insert_or_update_paper rec (insert_or_update_paper rec db).2).2
      (insert_or_update_paper rec db).1
      = expectedLinks (insert_or_update_paper rec (insert_or_update_paper rec db).2).2
          (insert_or_update_paper rec db).1 rec.authors 1 :=
    links_determined rec.authors 1 _ hW2.authorsKey hsub2 hproj2
  have hempty : extra2 = [] := by
    cases extra2 with
    | nil => rfl
    | cons a t =>
        have h1 := hextra2 a (List.mem_cons_self a t)
        exact absurd (hnames1 a.name h1.1) h1.2
  have hauthors_eq :
      (insert_or_update_paper rec (insert_or_update_paper rec db).2).2.authors
      = (insert_or_update_paper rec db).2.authors := by
    rw [hauth2, hempty, List.append_nil]
  rw [hx] at hlen3
  refine ⟨hlen1, hproj1, hlen2, heq, ?_, hlen3, hproj3⟩
  rw [hL1, hL2]
  exact expectedLinks_congr hauthors_eq _ rec.authors 1

/-- Witness for C1 at a concrete record and the empty database. -/
theorem upsert_row_and_links_exact_witness :
    ((insert_or_update_paper recW dbW).2.papers.filter
      (fun p => p.arxiv_id == extract_arxiv_id recW.entry_id)).length = 1 ∧
    (linksFor (insert_or_update_paper recW dbW).2 (insert_or_update_paper recW dbW).1).map
      (linkProj (insert_or_update_paper recW dbW).2) = expectedProj recW.authors 1 ∧
    ((insert_or_update_paper recW (insert_or_update_paper recW dbW).2).2.papers.filter
      (fun p => p.arxiv_id == extract_arxiv_id recW.entry_id)).length = 1 ∧
    (insert_or_update_paper recW (insert_or_update_paper recW dbW).2).1
      = (insert_or_update_paper recW dbW).1 ∧
    linksFor (insert_or_update_paper recW (insert_or_update_paper recW dbW).2).2
        (insert_or_update_paper recW dbW).1
      = linksFor (insert_or_update_paper recW dbW).2 (insert_or_update_paper recW dbW).1 ∧
    ((insert_or_update_paper recW2 (insert_or_update_paper recW dbW).2).2.papers.filter
      (fun p => p.arxiv_id == extract_arxiv_id recW.entry_id)).length = 1 ∧
    (linksFor (insert_or_update_paper recW2 (insert_or_update_paper recW dbW).2).2
        (insert_or_update_paper recW2 (insert_or_update_paper recW dbW).2).1).map
      (linkProj (insert_or_update_paper recW2 (insert_or_update_paper recW dbW).2).2)
      = expectedProj recW2.authors 1 :=
  upsert_row_and_links_exact recW recW2 dbW
    (by constructor <;> decide) (by decide) (by decide) rfl

/-- Claim C2, amended: the detach operation reports failure exactly when
the paper or the `(name, type)` tag row is absent — the lookup never
inspects the link table — and in that case the state is unchanged.
When both rows exist it reports success, every table except
`paper_tags` is unchanged, and `paper_tags` loses exactly the links of
that (paper, tag) pair; with no such link this is a reported-success
no-op, not a failure. -/
theorem remove_tag_spec (i n ty : String) (db : DB) :
    ((remove_tag_from_paper i n ty db).1 = true ↔
      (∃ p ∈ db.papers, p.arxiv_id = i) ∧
      ∃ t ∈ db.tags, t.name = n ∧ t.tag_type = ty) ∧
    ((remove_tag_from_paper i n ty db).1 = false →
      (remove_tag_from_paper i n ty db).2 = db) ∧
    (remove_tag_from_paper i n ty db).2.papers = db.papers ∧
    (remove_tag_from_paper i n ty db).2.authors = db.authors ∧
    (remove_tag_from_paper i n ty db).2.paper_authors = db.paper_authors ∧
    (remove_tag_from_paper i n ty db).2.tags = db.tags ∧
    (∀ p t, db.papers.find? (fun q => q.arxiv_id == i) = some p →
      db.tags.find? (fun u => u.name == n && u.tag_type == ty) = some t →
      (remove_tag_from_paper i n ty db).2.paper_tags
        = db.paper_tags.filter (fun l => !(l.paper_id == p.id && l.tag_id == t.id))) := by
  cases hf1 : db.papers.find? (fun q => q.arxiv_id == i) with
  | none =>
      have hr : remove_tag_from_paper i n ty db = (false, db) := by
        unfold remove_tag_from_paper
        rw [hf1]
      rw [hr]
      refine ⟨?_, fun _ => rfl, rfl, rfl, rfl, rfl, ?_⟩
      · refine iff_of_false (by simp) ?_
        rintro ⟨⟨p, hp, hpi⟩, -⟩
        exact List.find?_eq_none.mp hf1 p hp (beq_iff_eq.mpr hpi)
      · intro p t hp ht
        cases hp
  | some p =>
      cases hf2 : db.tags.find? (fun u => u.name == n && u.tag_type == ty) with
      | none =>
          have hr : remove_tag_from_paper i n ty db = (false, db) := by
            unfold remove_tag_from_paper
            rw [hf1, hf2]
          rw [hr]
          refine ⟨?_, fun _ => rfl, rfl, rfl, rfl, rfl, ?_⟩
          · refine iff_of_false (by simp) ?_
            rintro ⟨-, ⟨t, ht, htn, htt⟩⟩
            refine List.find?_eq_none.mp hf2 t ht ?_
            simp [htn, htt]
          · intro p' t' hp' ht'
            cases ht'
      | some t =>
          have hr : remove_tag_from_paper i n ty db
              = (true, ⟨db.papers, db.authors, db.paper_authors, db.tags,
                  db.paper_tags.filter
                    (fun l => !(l.paper_id == p.id && l.tag_id == t.id)),
                  db.nextPaperId, db.nextAuthorId, db.nextTagId⟩) := by
            unfold remove_tag_from_paper
            rw [hf1, hf2]
          rw [hr]
          have hpi : p.arxiv_id = i := by
            have := List.find?_some hf1
            simpa [beq_iff_eq] using this
          have htn : t.name = n ∧ t.tag_type = ty := by
            have := List.find?_some hf2
            simpa [beq_iff_eq] using this
          refine ⟨?_, ?_, rfl, rfl, rfl, rfl, ?_⟩
          · exact iff_of_true rfl
              ⟨⟨p, List.mem_of_find?_eq_some hf1, hpi⟩,
               ⟨t, List.mem_of_find?_eq_some hf2, htn.1, htn.2⟩⟩
          · intro h
            cases h
          · intro p' t' hp' ht'
            injection hp' with hp'
            injection ht' with ht'
            rw [← hp', ← ht']

/-- Claim C2 counterexample: in the state holding the paper and the tag
but no Paper–Tag link, detach returns `true` (reported success), not
the failure the claim requires. -/
theorem remove_tag_missing_link_counterexample :
    (∃ p ∈ dbT.papers, p.arxiv_id = "1234.5678") ∧
    (∃ t ∈ dbT.tags, t.name = "foo" ∧ t.tag_type = "personal") ∧
    dbT.paper_tags = [] ∧
    (remove_tag_from_paper "1234.5678" "foo" "personal" dbT).1 = true := by
  decide

/-- Witness for the amended C2 at a concrete state. -/
theorem remove_tag_spec_witness :
    (remove_tag_from_paper "1234.5678" "foo" "personal" dbT).1 = true ∧
    (remove_tag_from_paper "1234.5678" "foo" "personal" dbT).2.paper_tags
      = dbT.paper_tags.filter
          (fun l => !(l.paper_id == paperT.id && l.tag_id == tagT.id)) :=
  ⟨((remove_tag_spec "1234.5678" "foo" "personal" dbT).1).mpr (by decide),
   (remove_tag_spec "1234.5678" "foo" "personal" dbT).2.2.2.2.2.2 paperT tagT
     (by decide) (by decide)⟩

/-- The function `get_or_create_tag` takes its lookup branch when the tag exists. -/
theorem get_or_create_tag_found {n ty : String} {d : Option String} {db : DB}
    {t : TagRow}
    (hf : db.tags.find? (fun u => u.name == n && u.tag_type == ty) = some t) :
    get_or_create_tag n ty d db = (t.id, db) := by
  unfold get_or_create_tag
  rw [hf]

/-- Specification of the tag get-or-create step: every other table is
untouched, and afterwards the `(name, type)` lookup finds a row whose
id is the returned one. -/
theorem get_or_create_tag_spec (n ty : String) (d : Option String) (db : DB)
    (hW : WF db) :
    WF (get_or_create_tag n ty d db).2 ∧
    (get_or_create_tag n ty d db).2.papers = db.papers ∧
    (get_or_create_tag n ty d db).2.authors = db.authors ∧
    (get_or_create_tag n ty d db).2.paper_authors = db.paper_authors ∧
    (get_or_create_tag n ty d db).2.paper_tags = db.paper_tags ∧
    ∃ t, (get_or_create_tag n ty d db).2.tags.find?
        (fun u => u.name == n && u.tag_type == ty) = some t ∧
      t.id = (get_or_create_tag n ty d db).1 := by
  cases hf : db.tags.find? (fun u => u.name == n && u.tag_type == ty) with
  | some t =>
      rw [get_or_create_tag_found hf]
      exact ⟨hW, rfl, rfl, rfl, rfl, t, hf, rfl⟩
  | none =>
      have hr : get_or_create_tag n ty d db
          = (db.nextTagId,
             { db with tags := db.tags ++ [⟨db.nextTagId, n, ty, d⟩],
                       nextTagId := db.nextTagId + 1 }) := by
        unfold get_or_create_tag
        rw [hf]
      rw [hr]
      have hkeyfresh : (n, ty) ∉ db.tags.map (fun t => (t.name, t.tag_type)) := by
        intro hmem
        obtain ⟨t, ht, htk⟩ := List.mem_map.mp hmem
        refine List.find?_eq_none.mp hf t ht ?_
        have h1 : t.name = n := congrArg Prod.fst htk
        have h2 : t.tag_type = ty := congrArg Prod.snd htk
        simp [h1, h2]
      refine ⟨?_, rfl, rfl, rfl, rfl, ⟨db.nextTagId, n, ty, d⟩, ?_, rfl⟩
      · constructor
        · exact hW.papersKey
        · exact hW.papersId
        · exact hW.papersLt
        · exact hW.authorsKey
        · exact hW.authorsId
        · exact hW.authorsLt
        · exact hW.linksKey
        · exact hW.linksPaperLt
        · exact hW.linksAuthorLt
        · show ((db.tags ++ [(⟨db.nextTagId, n, ty, d⟩ : TagRow)]).map
            (fun t => (t.name, t.tag_type))).Nodup
          rw [List.map_append, List.map_cons, List.map_nil]
          exact nodup_append_singleton hW.tagsKey hkeyfresh
        · show ((db.tags ++ [(⟨db.nextTagId, n, ty, d⟩ : TagRow)]).map (fun t => t.id)).Nodup
          rw [List.map_append, List.map_cons, List.map_nil]
          refine nodup_append_singleton hW.tagsId ?_
          intro hmem
          obtain ⟨t, ht, htk⟩ := List.mem_map.mp hmem
          exact absurd htk (Nat.ne_of_lt (hW.tagsLt t ht))
        · intro t ht
          rcases List.mem_append.mp ht with h1 | h1
          · exact Nat.lt_succ_of_lt (hW.tagsLt t h1)
          · rcases List.mem_singleton.mp h1 with rfl
            exact Nat.lt_succ_self _
        · exact hW.ptKey
      · show (db.tags ++ [(⟨db.nextTagId, n, ty, d⟩ : TagRow)]).find? _ = _
        rw [List.find?_append]
        have h1 : db.tags.find? (fun u => u.name == n && u.tag_type == ty) = none := hf
        rw [h1]
        simp [List.find?_cons]

/-- The attach operation, unfolded once the paper lookup succeeds. -/
theorem add_tag_of_found {i n ty : String} {d : Option String} {db : DB}
    {p : PaperRow}
    (hf : db.papers.find? (fun q => q.arxiv_id == i) = some p) :
    add_tag_to_paper i n ty d db =
      (true,
       if (get_or_create_tag n ty d db).2.paper_tags.any
           (fun l => l.paper_id == p.id && l.tag_id == (get_or_create_tag n ty d db).1)
       then (get_or_create_tag n ty d db).2
       else { (get_or_create_tag n ty d db).2 with
                paper_tags := (get_or_create_tag n ty d db).2.paper_tags ++
                  [⟨p.id, (get_or_create_tag n ty d db).1⟩] }) := by
  unfold add_tag_to_paper
  rw [hf]

/-- Claim C4: attaching a tag to a missing paper reports failure and
mutates nothing; attaching to an existing paper reports success,
leaves exactly one link for that (paper, tag) pair, and attaching the
same tag again returns success and changes nothing (the duplicate
attach is a no-op, not an error). -/
theorem add_tag_idempotent (i n ty : String) (d : Option String) (db : DB)
    (hW : WF db) :
    (db.papers.find? (fun q => q.arxiv_id == i) = none →
      add_tag_to_paper i n ty d db = (false, db)) ∧
    (∀ p, db.papers.find? (fun q => q.arxiv_id == i) = some p →
      (add_tag_to_paper i n ty d db).1 = true ∧
      ((add_tag_to_paper i n ty d db).2.paper_tags.filter
        (fun l => l.paper_id == p.id &&
          l.tag_id == (get_or_create_tag n ty d db).1)).length = 1 ∧
      add_tag_to_paper i n ty d (add_tag_to_paper i n ty d db).2
        = (true, (add_tag_to_paper i n ty d db).2)) := by
  constructor
  · intro hf
    unfold add_tag_to_paper
    rw [hf]
  · intro p hf
    obtain ⟨hWg, hpg, hag, hpag, hptg, t, hft, htid⟩ :=
      get_or_create_tag_spec n ty d db hW
    rw [add_tag_of_found hf]
    cases hany : (get_or_create_tag n ty d db).2.paper_tags.any
        (fun l => l.paper_id == p.id && l.tag_id == (get_or_create_tag n ty d db).1) with
    | true =>
        rw [if_pos rfl]
        obtain ⟨l, hl, hlk⟩ := List.any_eq_true.mp hany
        simp only [Bool.and_eq_true, beq_iff_eq] at hlk
        refine ⟨rfl, ?_, ?_⟩
        · have hnd : ((get_or_create_tag n ty d db).2.paper_tags.map
              (fun x => (x.paper_id, x.tag_id))).Nodup := by
            rw [hptg]
            exact hW.ptKey
          have hkey : (fun x : PTLink => (x.paper_id, x.tag_id)) l
              = (p.id, (get_or_create_tag n ty d db).1) := by
            show (l.paper_id, l.tag_id) = _
            rw [hlk.1, hlk.2]
          have h1 := filter_key_singleton (fun x : PTLink => (x.paper_id, x.tag_id))
            hnd hl hkey
          have h2 : (get_or_create_tag n ty d db).2.paper_tags.filter
              (fun x => x.paper_id == p.id &&
                x.tag_id == (get_or_create_tag n ty d db).1) = [l] := h1
          rw [h2]
          rfl
        · rw [add_tag_of_found (show (get_or_create_tag n ty d db).2.papers.find?
              (fun q => q.arxiv_id == i) = some p by rw [hpg]; exact hf)]
          rw [get_or_create_tag_found hft, htid]
          rw [hany, if_pos rfl]
    | false =>
        rw [if_neg Bool.false_ne_true]
        have hnotin : ∀ x ∈ (get_or_create_tag n ty d db).2.paper_tags,
            ¬(x.paper_id == p.id &&
              x.tag_id == (get_or_create_tag n ty d db).1) = true := by
          intro x hx hpx
          have : ((get_or_create_tag n ty d db).2.paper_tags.any
              (fun l => l.paper_id == p.id &&
                l.tag_id == (get_or_create_tag n ty d db).1)) = true :=
            List.any_eq_true.mpr ⟨x, hx, hpx⟩
          rw [hany] at this
          cases this
        refine ⟨rfl, ?_, ?_⟩
        · show (((get_or_create_tag n ty d db).2.paper_tags ++
            [(⟨p.id, (get_or_create_tag n ty d db).1⟩ : PTLink)]).filter _).length = 1
          rw [List.filter_append]
          have h1 : (get_or_create_tag n ty d db).2.paper_tags.filter
              (fun l => l.paper_id == p.id &&
                l.tag_id == (get_or_create_tag n ty d db).1) = [] :=
            List.filter_eq_nil_iff.mpr hnotin
          rw [h1, List.nil_append]
          simp
        · rw [add_tag_of_found (show ({ (get_or_create_tag n ty d db).2 with
              paper_tags := (get_or_create_tag n ty d db).2.paper_tags ++
                [⟨p.id, (get_or_create_tag n ty d db).1⟩] } : DB).papers.find?
              (fun q => q.arxiv_id == i) = some p by
                show (get_or_create_tag n ty d db).2.papers.find? _ = _
                rw [hpg]; exact hf)]
          rw [get_or_create_tag_found (show ({ (get_or_create_tag n ty d db).2 with
              paper_tags := (get_or_create_tag n ty d db).2.paper_tags ++
                [⟨p.id, (get_or_create_tag n ty d db).1⟩] } : DB).tags.find?
              (fun u => u.name == n && u.tag_type == ty) = some t from hft)]
          rw [htid]
          have hany2 : (({ (get_or_create_tag n ty d db).2 with
              paper_tags := (get_or_create_tag n ty d db).2.paper_tags ++
                [⟨p.id, (get_or_create_tag n ty d db).1⟩] } : DB).paper_tags.any
              (fun l => l.paper_id == p.id &&
                l.tag_id == (get_or_create_tag n ty d db).1)) = true := by
            refine List.any_eq_true.mpr
              ⟨(⟨p.id, (get_or_create_tag n ty d db).1⟩ : PTLink), ?_, by simp⟩
            show _ ∈ (get_or_create_tag n ty d db).2.paper_tags ++ _
            exact List.mem_append.mpr (Or.inr (List.mem_singleton.mpr rfl))
          rw [hany2, if_pos rfl]

/-- Witness for C4 at a concrete state: attach succeeds, leaves one
link, the repeat attach is a reported-success no-op, and attach to a
missing paper fails without mutating. -/
theorem add_tag_idempotent_witness :
    (add_tag_to_paper "1234.5678" "foo" "personal" none dbT).1 = true ∧
    ((add_tag_to_paper "1234.5678" "foo" "personal" none dbT).2.paper_tags.filter
      (fun l => l.paper_id == paperT.id &&
        l.tag_id == (get_or_create_tag "foo" "personal" none dbT).1)).length = 1 ∧
    add_tag_to_paper "1234.5678" "foo" "personal" none
        (add_tag_to_paper "1234.5678" "foo" "personal" none dbT).2
      = (true, (add_tag_to_paper "1234.5678" "foo" "personal" none dbT).2) ∧
    add_tag_to_paper "zzzz.0000" "foo" "personal" none dbT = (false, dbT) := by
  have h := add_tag_idempotent "1234.5678" "foo" "personal" none dbT
    (by constructor <;> decide)
  have h2 := h.2 paperT (by decide)
  have h0 := (add_tag_idempotent "zzzz.0000" "foo" "personal" none dbT
    (by constructor <;> decide)).1 (by decide)
  exact ⟨h2.1, h2.2.1, h2.2.2, h0⟩

/-- Splitting a list by a Boolean predicate partitions its length. -/
theorem filter_length_partition {α : Type} (p : α → Bool) (l : List α) :
    (l.filter (fun x => !(p x))).length + (l.filter p).length = l.length := by
  induction l with
  | nil => rfl
  | cons a t ih =>
      rw [List.filter_cons, List.filter_cons]
      cases ha : p a <;> simp only [Bool.not_true, Bool.not_false] <;>
        simp only [if_true, if_false, Bool.false_eq_true, Bool.true_eq_false,
          List.length_cons] <;> omega

/-- The batch loop appends every record's executed statements — the
failed records' partial statements included — to the transaction, adds
one success per non-failing record and one error per failing record,
and never stops early. -/
theorem runBatchLoop_spec {α : Type} (recs : List (BatchRec α)) :
    ∀ (ex : List α) (c e : Nat),
    runBatchLoop recs ex c e
      = (ex ++ (recs.map (fun r => r.ops)).flatten,
         c + (recs.filter (fun r => !r.fails)).length,
         e + (recs.filter (fun r => r.fails)).length) := by
  induction recs with
  | nil =>
      intro ex c e
      simp [runBatchLoop]
  | cons r rest ih =>
      intro ex c e
      cases hrf : r.fails with
      | true =>
          have hstep : runBatchLoop (r :: rest) ex c e
              = runBatchLoop rest (ex ++ r.ops) c (e + 1) := by
            conv_lhs => unfold runBatchLoop
            rw [hrf, if_pos rfl]
          rw [hstep, ih]
          simp [hrf, List.append_assoc, Nat.add_comm, Nat.add_assoc, Nat.add_left_comm]
      | false =>
          have hstep : runBatchLoop (r :: rest) ex c e
              = runBatchLoop rest (ex ++ r.ops) (c + 1) e := by
            conv_lhs => unfold runBatchLoop
            rw [hrf, if_neg Bool.false_ne_true]
          rw [hstep, ih]
          simp [hrf, List.append_assoc, Nat.add_comm, Nat.add_assoc, Nat.add_left_comm]

/-- Claim C3, amended: in both batch modes, a record whose per-record
upsert raises is counted as an error without aborting the loop — the
success and error counters together account for every record — and the
whole batch is committed exactly once at the end; an exception raised
outside the per-record step rolls back the entire batch and re-raises.
However, the statements a failing record executed before raising stay
in the transaction and are committed with the batch: row-level
atomicity does not hold. -/
theorem batch_skip_count_commit {α : Type} (recs : List (BatchRec α)) (k : Nat) :
    (runBatch recs none).count = (recs.filter (fun r => !r.fails)).length ∧
    (runBatch recs none).errors = (recs.filter (fun r => r.fails)).length ∧
    (runBatch recs none).count + (runBatch recs none).errors = recs.length ∧
    (runBatch recs none).committed = (recs.map (fun r => r.ops)).flatten ∧
    (runBatch recs none).commits = 1 ∧
    (runBatch recs none).rollbacks = 0 ∧
    (runBatch recs none).raised = false ∧
    (runBatch recs (some k)).committed = [] ∧
    (runBatch recs (some k)).commits = 0 ∧
    (runBatch recs (some k)).rollbacks = 1 ∧
    (runBatch recs (some k)).raised = true := by
  have h := runBatchLoop_spec recs [] 0 0
  refine ⟨?_, ?_, ?_, ?_, rfl, rfl, rfl, rfl, rfl, rfl, rfl⟩
  · show (runBatchLoop recs [] 0 0).2.1 = _
    rw [h]
    exact Nat.zero_add _
  · show (runBatchLoop recs [] 0 0).2.2 = _
    rw [h]
    exact Nat.zero_add _
  · show (runBatchLoop recs [] 0 0).2.1 + (runBatchLoop recs [] 0 0).2.2 = _
    rw [h]
    have hp := filter_length_partition (fun r => r.fails) recs
    show 0 + (recs.filter (fun r => !r.fails)).length
      + (0 + (recs.filter (fun r => r.fails)).length) = _
    omega
  · show (runBatchLoop recs [] 0 0).1 = _
    rw [h]
    exact List.nil_append _

/-- Claim C3 counterexample: a record that executed one statement and
then raised is skipped and counted, yet its partial mutation is part
of the committed batch — refuting the claimed row-level atomicity. -/
theorem batch_failed_record_mutation_committed_counterexample :
    recC3.fails = true ∧
    (runBatch [recC3] none).errors = 1 ∧
    (runBatch [recC3] none).count = 0 ∧
    (runBatch [recC3] none).committed = [7] ∧
    7 ∈ (runBatch [recC3] none).committed := by
  decide

/-- Claim C5: evaluating the escaping passes at the docstring's own
example.  The three substitutions wrap the uppercase run `RNA` and the
post-hyphen `B`, but no rule matches the word-initial `P` after a
space, so the output is not the documented
`\x7bRNA\x7d-\x7bB\x7dinding \x7bP\x7droteins`. -/
theorem protect_capitals_example :
    protect_capitals_for_bibtex "RNA-Binding Proteins" = "{RNA}-{B}inding Proteins" ∧
    protect_capitals_for_bibtex "RNA-Binding Proteins" ≠ "{RNA}-{B}inding {P}roteins" := by
  decide

/-- Claim C6: the citation key is the first author's last
whitespace-delimited token with non-alphanumeric characters removed,
then the publication year, then the literal suffix `x`; with no
authors it is `arxiv` + year + `x`. -/
theorem bibtex_key_spec (a : String) (rest : List String) (year : Nat) (ln : String)
    (h : last_name_of a = some ln) :
    bibtex_key (a :: rest) year = some (strip_non_alnum ln ++ toString year ++ "x") ∧
    bibtex_key [] year = some ("arxiv" ++ toString year ++ "x") := by
  constructor
  · show (last_name_of a).map (fun s => strip_non_alnum s ++ toString year ++ "x")
      = some (strip_non_alnum ln ++ toString year ++ "x")
    rw [h]
    rfl
  · rfl

/-- Witness for C6: first author `Jane A. Doe`, year 2024 gives
`Doe2024x`; no authors gives `arxiv2024x`. -/
theorem bibtex_key_spec_witness :
    last_name_of "Jane A. Doe" = some "Doe" ∧
    bibtex_key ["Jane A. Doe"] 2024 = some "Doe2024x" ∧
    bibtex_key [] 2024 = some "arxiv2024x" := by
  have h := bibtex_key_spec "Jane A. Doe" [] 2024 "Doe" (by decide)
  refine ⟨by decide, ?_, h.2⟩
  rw [h.1]
  decide

/-- The function `takeWhile` runs through a satisfying prefix and stops at the
first failing character. -/
theorem takeWhile_append_stop {p : Char → Bool} {l1 l2 : List Char} {c : Char}
    (h1 : ∀ x ∈ l1, p x = true) (hc : p c = false) :
    (l1 ++ c :: l2).takeWhile p = l1 := by
  induction l1 with
  | nil =>
      rw [List.nil_append, List.takeWhile_cons, hc, if_neg Bool.false_ne_true]
  | cons a t ih =>
      have ha := h1 a (List.mem_cons_self a t)
      rw [List.cons_append, List.takeWhile_cons, ha, if_pos rfl]
      rw [ih (fun x hx => h1 x (List.mem_cons_of_mem a hx))]

/-- Claim C7, amended: the export truncates the stored ID at its first
`v`.  For an ID whose base contains no `v`, this removes exactly the
trailing version marker; an ID containing no `v` at all is embedded
unchanged.  (An ID whose base itself contains `v` is truncated inside
the base — see the counterexample.) -/
theorem clean_arxiv_id_amended (base suffix i : String)
    (hb : 'v' ∉ base.data) (hi : 'v' ∉ i.data) :
    clean_arxiv_id (base ++ "v" ++ suffix) = base ∧
    clean_arxiv_id i = i := by
  constructor
  · unfold clean_arxiv_id
    have hdata : (base ++ "v" ++ suffix).data = base.data ++ 'v' :: suffix.data := by
      simp
    rw [hdata]
    rw [if_pos (List.mem_append.mpr (Or.inr (List.mem_cons_self _ _)))]
    rw [takeWhile_append_stop ?h1 ?hc]
    case h1 =>
      intro x hx
      have : x ≠ 'v' := fun hxe => hb (hxe ▸ hx)
      simp [this]
    case hc => simp
  · unfold clean_arxiv_id
    rw [if_neg hi]

/-- Claim C7 counterexample: the stored ID `solv-int/9701001v1` carries
the trailing marker `v1`, but the exported value is `sol` — the split
happens at the first `v`, inside the base, not at the marker. -/
theorem version_strip_counterexample :
    paperC7.arxiv_id = "solv-int/9701001" ++ "v" ++ "1" ∧
    bibtex_eprint paperC7 = "sol" ∧
    ("sol" : String) ≠ "solv-int/9701001" := by
  decide

/-- Witness for the amended C7 at concrete IDs. -/
theorem clean_arxiv_id_amended_witness :
    clean_arxiv_id ("2401.12345" ++ "v" ++ "2") = "2401.12345" ∧
    clean_arxiv_id "1801.00001" = "1801.00001" :=
  clean_arxiv_id_amended "2401.12345" "2" "1801.00001" (by decide) (by decide)

/-- Claim C8: with the page size fixed at 20, a page holds the rows at
offset `20*(page-1)`, at most 20 of them; the reported `total_pages`
is the ceiling of the row count divided by 20; and with 45 matching
rows there are 3 pages and page 3 holds exactly 5 rows. -/
theorem pagination_spec {α : Type} (rows : List α) (page : Nat) :
    page_rows rows page = (rows.drop (20 * (page - 1))).take 20 ∧
    (page_rows rows page).length = min 20 (rows.length - 20 * (page - 1)) ∧
    total_pages rows.length = (rows.length + 19) / 20 ∧
    rows.length ≤ 20 * total_pages rows.length ∧
    20 * total_pages rows.length < rows.length + 20 ∧
    total_pages 45 = 3 ∧
    (page_rows (List.range 45) 3).length = 5 := by
  refine ⟨?_, ?_, ?_, ?_, ?_, by decide, by decide⟩
  · unfold page_rows per_page
    rw [Nat.mul_comm]
  · unfold page_rows per_page
    rw [Nat.mul_comm, List.length_take, List.length_drop]
  · unfold total_pages per_page
    congr 1
  · show rows.length ≤ 20 * ((rows.length + per_page - 1) / per_page)
    unfold per_page
    omega
  · show 20 * ((rows.length + per_page - 1) / per_page) < rows.length + 20
    unfold per_page
    omega

/-- Claim C9: a request naming a paper external ID absent from `papers`,
an author name absent from `authors`, or a date string that does not
denote a valid calendar date, receives a 404 from the corresponding
route. -/
theorem routes_unknown_404 (db : DB) (i nm ds : String) (pg : Nat) :
    ((∀ p ∈ db.papers, p.arxiv_id ≠ i) → paper_detail db i = HResp.notFound) ∧
    ((∀ a ∈ db.authors, a.name ≠ nm) → author_papers db nm pg = HResp.notFound) ∧
    (parse_date ds = none → papers_by_date db ds = HResp.notFound) := by
  refine ⟨?_, ?_, ?_⟩
  · intro h
    have hf : db.papers.find? (fun p => p.arxiv_id == i) = none :=
      List.find?_eq_none.mpr (fun p hp hbeq => h p hp (beq_iff_eq.mp hbeq))
    unfold paper_detail
    rw [hf]
  · intro h
    have hf : db.authors.find? (fun a => a.name == nm) = none :=
      List.find?_eq_none.mpr (fun a ha hbeq => h a ha (beq_iff_eq.mp hbeq))
    unfold author_papers
    rw [hf]
  · intro h
    unfold papers_by_date
    rw [h]

/-- Witness for C9 on the empty state and a malformed date. -/
theorem routes_unknown_404_witness :
    paper_detail dbW "2401.99999" = HResp.notFound ∧
    author_papers dbW "Nobody" 1 = HResp.notFound ∧
    papers_by_date dbW "2024-13-01" = HResp.notFound := by
  have h := routes_unknown_404 dbW "2401.99999" "Nobody" "2024-13-01" 1
  exact ⟨h.1 (by decide), h.2.1 (by decide), h.2.2 (by decide)⟩

/-- Claim C10: the recent-window search is built with `max_results=500`
and the backfill search with `max_results=5000`; the client therefore
hands the loop at most that many records, each invocation processes
(successes plus skipped errors) at most the cap, and papers of the
window beyond the cap are simply not part of the processed list. -/
theorem ingestion_caps {α : Type} (window : List (BatchRec α)) (ou : Option Nat) :
    recent_search.max_results = 500 ∧
    backfill_search.max_results = 5000 ∧
    client_results recent_search window = window.take 500 ∧
    client_results backfill_search window = window.take 5000 ∧
    (fetch_recent_papers window none).count
      + (fetch_recent_papers window none).errors ≤ 500 ∧
    (fetch_date_range window none).count
      + (fetch_date_range window none).errors ≤ 5000 ∧
    fetch_recent_papers window ou = runBatch (window.take 500) ou ∧
    fetch_date_range window ou = runBatch (window.take 5000) ou := by
  have hcap : ∀ (l : List (BatchRec α)) (n : Nat),
      (runBatch (l.take n) none).count + (runBatch (l.take n) none).errors ≤ n := by
    intro l n
    have h := runBatchLoop_spec (l.take n) [] 0 0
    show (runBatchLoop (l.take n) [] 0 0).2.1
      + (runBatchLoop (l.take n) [] 0 0).2.2 ≤ n
    rw [h]
    have hp := filter_length_partition (fun r : BatchRec α => r.fails) (l.take n)
    have hlen : (l.take n).length ≤ n := by
      rw [List.length_take]
      exact min_le_left _ _
    show 0 + ((l.take n).filter (fun r => !r.fails)).length
      + (0 + ((l.take n).filter (fun r => r.fails)).length) ≤ n
    omega
  exact ⟨rfl, rfl, rfl, rfl, hcap window 500, hcap window 5000, rfl, rfl⟩
